import Mathlib

/-!
Verification of the mapgap data-synchronization and map-state layer.

Shallow embedding of the relevant source functions:
* `topCounties` and the score filtering (src/hooks/useIndustryData.ts),
* `buildFillColorExpression` and `validateGeoJSON` (ChoroplethLayer),
* the demographics store state machine (src/hooks/useCountyData.ts),
* the industry-score-loading effect state machine (src/hooks/useIndustryData.ts),
* the theme-restyle settle logic and the state-filter viewport fit (MapView),
* the hover tooltip update (MapTooltip).

JavaScript numbers are modelled as `ℚ` (all arithmetic in the claims under
study stays exact); JS objects whose enumeration order matters are modelled
as association lists in enumeration order.
-/

namespace MapGap

/-- A per-county score record (src/types/score.ts `CountyScore`). -/
structure CountyScore where
  fips : String
  name : String
  state : String
  score : ℚ
  establishmentCount : ℚ
  populationPerBiz : ℚ
deriving DecidableEq, Repr

/-- `IndustryScores = Record<string, CountyScore>`, modelled as the list of
`(fips, entry)` pairs in the object's property-enumeration order (the order
`Object.values` / `Object.entries` produce). -/
abbrev IndustryScores := List (String × CountyScore)

/-- The comparator passed to `Array.prototype.sort` in `topCounties`:
`(a, b) => b.score - a.score` keeps `a` before `b` exactly when
`b.score ≤ a.score`. -/
def scoreGe (a b : CountyScore) : Prop := b.score ≤ a.score

instance : DecidableRel scoreGe := fun a b => inferInstanceAs (Decidable (b.score ≤ a.score))

instance : IsTotal CountyScore scoreGe := ⟨fun a b => le_total b.score a.score⟩

instance : IsTrans CountyScore scoreGe := ⟨fun _ _ _ h1 h2 => le_trans h2 h1⟩

/-- The descending-by-score ordering of `Object.values(scores)`.
`Array.prototype.sort` is stable (ES2019), so it is realized by any stable
sort with the comparator above; we use insertion sort. -/
def sortedByScore (scores : IndustryScores) : List CountyScore :=
  (scores.map Prod.snd).insertionSort scoreGe

/-- `topCounties` from `useIndustryData`:
`Object.values(scores).sort((a, b) => b.score - a.score).slice(0, 10)`. -/
def topCounties (scores : IndustryScores) : List CountyScore :=
  (sortedByScore scores).take 10

/-- Lexicographic order on character lists: the standard ascending order of
fips strings. -/
def charListLe : List Char → List Char → Bool
  | [], _ => true
  | _ :: _, [] => false
  | a :: as, b :: bs => if a < b then true else if a = b then charListLe as bs else false

/-- Ascending order of fips strings. -/
def strLeLex (a b : String) : Bool := charListLe a.toList b.toList

/-- The ordering the spec describes for `topN`: score descending with ties
broken by fips ascending. Stated from the spec's words, for comparison with
the source's `topCounties`. -/
def specTopLe (a b : CountyScore) : Prop :=
  b.score < a.score ∨ (a.score = b.score ∧ strLeLex a.fips b.fips = true)

instance : DecidableRel specTopLe := fun a b =>
  inferInstanceAs (Decidable (b.score < a.score ∨ (a.score = b.score ∧ strLeLex a.fips b.fips = true)))

/-- `topN` as the spec words it: sort by score descending, ties by fips
ascending, first `n`. -/
def specTopN (scores : IndustryScores) (n : Nat) : List CountyScore :=
  ((scores.map Prod.snd).insertionSort specTopLe).take n

/-- The metric selector (src/components/controls/MetricSelect.tsx `MetricKey`). -/
inductive MetricKey where
  | score
  | establishmentCount
  | populationPerBiz
deriving DecidableEq, Repr

/-- Field access `entry[metric]` on a `CountyScore`. -/
def metricValue (e : CountyScore) : MetricKey → ℚ
  | .score => e.score
  | .establishmentCount => e.establishmentCount
  | .populationPerBiz => e.populationPerBiz

/-- The JS loop `for (v of values) if (v < min) min = v` starting from
`Infinity`: the first element always replaces the initial `Infinity`, so for a
nonempty list this folds from the head. The `[]` case (where the code would
keep `Infinity`) never influences the built expression, because the pair list
built from an empty entry list is empty. -/
def jsMin : List ℚ → ℚ
  | [] => 0
  | v :: vs => vs.foldl (fun m x => if x < m then x else m) v

/-- The JS loop `for (v of values) if (v > max) max = v` starting from
`-Infinity`; see `jsMin` for the empty case. -/
def jsMax : List ℚ → ℚ
  | [] => 0
  | v :: vs => vs.foldl (fun m x => if m < x then x else m) v

/-- `choroplethScale` (src/data/colorScales.ts): the three interpolation
stops. -/
def choroplethScale : List (ℚ × String) :=
  [(0, "#e5e7eb"), (50, "#a5b4fc"), (100, "#3730a3")]

/-- The `(min, max)` pair computed by `buildFillColorExpression`: `(0, 100)`
for the primary score, otherwise the running min/max over the entries' values
for the metric, with `max = min + 1` forced when the two coincide. -/
def rangeFor (scores : IndustryScores) (metric : MetricKey) : ℚ × ℚ :=
  if metric = .score then (0, 100)
  else
    let values := scores.map (fun p => metricValue p.2 metric)
    let mn := jsMin values
    let mx := jsMax values
    (mn, if mx = mn then mn + 1 else mx)

/-- The result of `buildFillColorExpression`: a `match` table of
`(fips, normalised value)` pairs with a default for counties absent from the
table, fed to a linear `interpolate` over the given stops. -/
structure FillExpr where
  pairs : List (String × ℚ)
  matchDefault : ℚ
  stops : List (ℚ × String)
deriving DecidableEq, Repr

/-- `buildFillColorExpression(scores, metric)` from ChoroplethLayer. -/
def buildFillColorExpression (scores : IndustryScores) (metric : MetricKey) : FillExpr :=
  let r := rangeFor scores metric
  { pairs := scores.map (fun p =>
      let raw := metricValue p.2 metric
      (p.1, if metric = .score then raw else (raw - r.1) / (r.2 - r.1) * 100))
    matchDefault := 0
    stops := choroplethScale }

/-- A JSON value, for the payload validator. -/
inductive JValue where
  | jnull
  | jbool (b : Bool)
  | jnum (q : ℚ)
  | jstr (s : String)
  | jarr (elems : List JValue)
  | jobj (fields : List (String × JValue))

/-- `typeof v === 'object' && v !== null` (arrays are objects in JS). -/
def isObjectNonNull : JValue → Bool
  | .jobj _ => true
  | .jarr _ => true
  | _ => false

/-- JS property access `v[key]`: `none` models `undefined`. Only plain objects
carry the properties the validator reads. -/
def getProp (v : JValue) (key : String) : Option JValue :=
  match v with
  | .jobj fields => (fields.find? (fun f => f.1 == key)).map Prod.snd
  | _ => none

/-- JS strict equality of a property with a string literal, e.g.
`obj.type === 'FeatureCollection'`. -/
def propIsStr (v : JValue) (key lit : String) : Bool :=
  match getProp v key with
  | some (.jstr s) => s == lit
  | _ => false

/-- The spot-check `validateGeoJSON` applies to `features[0]`: `type` is
`'Feature'`, `geometry` is a non-null object, and `properties?.GEOID` is a
string. -/
def checkFirstFeature (f : JValue) : Bool :=
  propIsStr f "type" "Feature" &&
  (match getProp f "geometry" with
   | some g => isObjectNonNull g
   | none => false) &&
  (match (getProp f "properties").bind (fun p => getProp p "GEOID") with
   | some (.jstr _) => true
   | _ => false)

/-- `validateGeoJSON` from ChoroplethLayer: non-null object, `type` is
`'FeatureCollection'`, `features` is an array, and when it is nonempty the
first feature passes the spot-check. -/
def validateGeoJSON (data : JValue) : Bool :=
  isObjectNonNull data &&
  propIsStr data "type" "FeatureCollection" &&
  (match getProp data "features" with
   | some (.jarr fs) =>
     match fs with
     | [] => true
     | first :: _ => checkFirstFeature first
   | _ => false)

/-- The validity notion the claim words state: EVERY feature carries the
join-key property and a nested geometry object. Stated from the spec's words,
for comparison with the source's `validateGeoJSON`. -/
def specAllFeaturesValid (data : JValue) : Bool :=
  isObjectNonNull data &&
  propIsStr data "type" "FeatureCollection" &&
  (match getProp data "features" with
   | some (.jarr fs) => fs.all (fun f =>
      (match (getProp f "properties").bind (fun p => getProp p "GEOID") with
       | some (.jstr _) => true
       | _ => false) &&
      (match getProp f "geometry" with
       | some g => isObjectNonNull g
       | none => false))
   | _ => false)

/-- A started demographics network fetch. `pid` identifies the promise the
callers share; `resolved` records whether it has settled. -/
structure DemoFetch where
  pid : Nat
  resolved : Bool
deriving DecidableEq, Repr

/-- State of `useCountyData`: the React state triple plus the two refs, the
log of every fetch ever started, and a fresh-id counter. The demographics
payload is abstracted to a `Nat` tag (its content is irrelevant to the claims). -/
structure DemoState where
  data : Option Nat
  loading : Bool
  error : Option String
  fetched : Bool
  promiseRef : Option Nat
  fetches : List DemoFetch
  nextId : Nat
deriving DecidableEq, Repr

def demoInit : DemoState :=
  { data := none, loading := false, error := none, fetched := false,
    promiseRef := none, fetches := [], nextId := 0 }

/-- What a call of `ensureLoaded` does before suspending: either it resolves
immediately with a value (`ret`), or it suspends awaiting the promise `pid`. -/
inductive DemoCallResult where
  | ret (d : Option Nat)
  | awaits (pid : Nat)
deriving DecidableEq, Repr

/-- The synchronous prefix of `ensureLoaded` (it runs atomically up to the
`await`): return cached data; else share the in-flight promise; else return
null after an unretried failure; else start a fetch and await it. -/
def ensureLoadedStart (s : DemoState) : DemoCallResult × DemoState :=
  match s.data with
  | some d => (.ret (some d), s)
  | none =>
    match s.promiseRef with
    | some p => (.awaits p, s)
    | none =>
      if s.fetched && s.error.isSome then (.ret none, s)
      else
        let pid := s.nextId
        (.awaits pid,
         { s with fetched := true, loading := true, error := none,
                  promiseRef := some pid,
                  fetches := s.fetches ++ [{ pid := pid, resolved := false }],
                  nextId := s.nextId + 1 })

def markDemoResolved (fs : List DemoFetch) (p : Nat) : List DemoFetch :=
  fs.map (fun f => if f.pid = p then { f with resolved := true } else f)

/-- `p` is a started-but-unsettled fetch. -/
def demoOutstanding (s : DemoState) (p : Nat) : Bool :=
  s.fetches.any (fun f => f.pid == p && !f.resolved)

/-- Number of outstanding demographics fetches. -/
def demoOutstandingCount (s : DemoState) : Nat :=
  (s.fetches.filter (fun f => !f.resolved)).length

/-- Success continuation of the fetch promise `p`: commit the data and clear
the error. (`promiseRef` is deliberately not cleared on success.) A no-op
unless `p` is outstanding: a promise settles once. -/
def demoResolveOk (s : DemoState) (p : Nat) (d : Nat) : DemoState :=
  if demoOutstanding s p then
    { s with data := some d, loading := false, error := none,
             fetches := markDemoResolved s.fetches p }
  else s

/-- Failure continuation of the fetch promise `p`: record the error and clear
`promiseRef` so a later `retry` can re-attempt. -/
def demoResolveErr (s : DemoState) (p : Nat) (msg : String) : DemoState :=
  if demoOutstanding s p then
    { s with data := none, loading := false, error := some msg,
             promiseRef := none, fetches := markDemoResolved s.fetches p }
  else s

/-- `retry()` from `useCountyData`: clear both refs and reset the state. -/
def demoRetry (s : DemoState) : DemoState :=
  { s with fetched := false, promiseRef := none,
           data := none, loading := false, error := none }

/-- Events of the demographics store: a caller invoking `ensureLoaded`, and a
pending promise settling with success or failure. (`retry` is treated
separately, in the error-recovery claim.) -/
inductive DemoEvent where
  | call
  | resolveOk (p : Nat) (d : Nat)
  | resolveErr (p : Nat) (msg : String)
deriving DecidableEq, Repr

def demoStep (s : DemoState) : DemoEvent → DemoState
  | .call => (ensureLoadedStart s).2
  | .resolveOk p d => demoResolveOk s p d
  | .resolveErr p m => demoResolveErr s p m

/-- Run the single-threaded event loop over a sequence of demographics
events. -/
def runDemo (evs : List DemoEvent) : DemoState := evs.foldl demoStep demoInit

/-- A started industry-score fetch: its industry id, whether the effect run
that started it has been superseded (`cancelled` flag of the closure), and
whether it has settled. -/
structure IFetch where
  key : String
  cancelled : Bool
  resolved : Bool
deriving DecidableEq, Repr

/-- State of the score-loading part of `useIndustryData`: the loaded catalog
ids, the displayed score set (identified by its industry id), the
loading/error state, the keys present in `scoreCache`, the index of the fetch
owned by the live effect run, and the log of every fetch started. -/
structure IState where
  industries : List String
  rawScores : Option String
  scoresLoading : Bool
  scoresError : Option String
  cache : List String
  active : Option Nat
  fetches : List IFetch
deriving DecidableEq, Repr

def iInit (catalog : List String) : IState :=
  { industries := catalog, rawScores := none, scoresLoading := false,
    scoresError := none, cache := [], active := none, fetches := [] }

/-- One character of `ID_FORMAT = /^[a-zA-Z0-9_-]+$/`. -/
def idCharOk (c : Char) : Bool := c.isAlpha || c.isDigit || c == '-' || c == '_'

/-- `ID_FORMAT.test(id)`. -/
def idFormatTest (s : String) : Bool := s.length > 0 && s.toList.all idCharOk

def markICancelled : List IFetch → Nat → List IFetch
  | [], _ => []
  | f :: fs, 0 => { f with cancelled := true } :: fs
  | f :: fs, i + 1 => f :: markICancelled fs i

def markIResolved : List IFetch → Nat → List IFetch
  | [], _ => []
  | f :: fs, 0 => { f with resolved := true } :: fs
  | f :: fs, i + 1 => f :: markIResolved fs i

/-- Cleanup of the previous score-loading effect run: set its closure's
`cancelled` flag (the fetch itself keeps running). -/
def cancelActive (s : IState) : IState :=
  match s.active with
  | none => s
  | some i => { s with fetches := markICancelled s.fetches i, active := none }

/-- Body of the score-loading effect for a newly selected industry id, run
after the previous run's cleanup: clear on null id or still-loading catalog;
reject ids failing `ID_FORMAT` or absent from the catalog without fetching;
serve cache hits without fetching; otherwise start a fetch. -/
def selectIndustry (s₀ : IState) (id : Option String) (industriesLoading : Bool) : IState :=
  let s := cancelActive s₀
  match id with
  | none => { s with rawScores := none, scoresError := none, scoresLoading := false }
  | some key =>
    if industriesLoading then
      { s with rawScores := none, scoresError := none, scoresLoading := false }
    else if !idFormatTest key then
      { s with scoresError := some "Unknown industry ID",
               rawScores := none, scoresLoading := false }
    else if !(s.industries.contains key) then
      { s with scoresError := some ("Unknown industry ID: " ++ key),
               rawScores := none, scoresLoading := false }
    else if s.cache.contains key then
      { s with rawScores := some key, scoresError := none, scoresLoading := false }
    else
      { s with scoresLoading := true, scoresError := none,
               active := some s.fetches.length,
               fetches := s.fetches ++ [{ key := key, cancelled := false, resolved := false }] }

/-- Continuation of the score fetch at index `i`: if its effect run was
superseded the result is dropped; otherwise success caches the payload and
failure records the error. A no-op on a settled or unknown index. -/
def iResolve (s : IState) (i : Nat) (ok : Bool) : IState :=
  match s.fetches[i]? with
  | none => s
  | some f =>
    if f.resolved then s
    else
      let s' := { s with fetches := markIResolved s.fetches i }
      if f.cancelled then s'
      else if ok then
        { s' with cache := s'.cache ++ [f.key], rawScores := some f.key,
                  scoresLoading := false }
      else
        { s' with scoresError := some "Failed to load scores", scoresLoading := false }

/-- Events of the score-loading effect: the selected industry id changing
(cleanup of the previous run, then the new run), and a pending fetch
settling. The catalog is loaded throughout. -/
inductive IEvent where
  | select (id : Option String)
  | resolve (i : Nat) (ok : Bool)
deriving DecidableEq, Repr

def iStep (s : IState) : IEvent → IState
  | .select id => selectIndustry s id false
  | .resolve i ok => iResolve s i ok

def runI (catalog : List String) (evs : List IEvent) : IState :=
  evs.foldl iStep (iInit catalog)

/-- Number of outstanding fetches for the industry id `key`. -/
def iOutstandingFor (s : IState) (key : String) : Nat :=
  (s.fetches.filter (fun f => !f.resolved && f.key == key)).length

/-- The claim's per-key dedup property: never more than one outstanding
network fetch per industry id. -/
def atMostOnePerKey (s : IState) : Prop := ∀ key, iOutstandingFor s key ≤ 1

/-- State of one theme-driven style swap in MapView: the closure's `settled`
flag, the `mapReady` React state, and how many times the ready transition has
been committed during this swap. -/
structure SwapState where
  settled : Bool
  mapReady : Bool
  commits : Nat
deriving DecidableEq, Repr

/-- State right after the swap begins: `setMapReady(false)` has run,
`settled` is fresh, no commit yet. -/
def swapStart : SwapState := { settled := false, mapReady := false, commits := 0 }

/-- The two ways a swap can settle: the engine's `style.load` signal, or the
fallback timer firing. -/
inductive SwapEvent where
  | styleLoad
  | timeoutFire
deriving DecidableEq, Repr

/-- The fallback delay the effect passes to `setTimeout` (milliseconds). -/
def swapTimeoutMs : ℚ := 5000

/-- The two handlers installed by the style-switch effect: each checks the
shared `settled` flag before committing `setMapReady(true)`. -/
def swapStep (s : SwapState) : SwapEvent → SwapState
  | .styleLoad =>
    if s.settled then s
    else { settled := true, mapReady := true, commits := s.commits + 1 }
  | .timeoutFire =>
    if !s.settled then
      { settled := true, mapReady := true, commits := s.commits + 1 }
    else s

/-- Run a swap over its timed event trace (times in ms, in arrival order). -/
def runSwap (evs : List (ℚ × SwapEvent)) : SwapState :=
  evs.foldl (fun s e => swapStep s e.2) swapStart

/-- A swap trace that was not cut short by the effect's cleanup delivers the
engine signal at some time, or the fallback timer at `swapTimeoutMs` —
whichever comes first is simply the trace's first event. -/
def swapTraceComplete (evs : List (ℚ × SwapEvent)) : Prop :=
  (∃ t, (t, SwapEvent.styleLoad) ∈ evs) ∨ (swapTimeoutMs, SwapEvent.timeoutFire) ∈ evs

/-- One entry of the static `stateList` lookup table. -/
structure StateEntry where
  name : String
  abbreviation : String
  fips : String
deriving DecidableEq, Repr

/-- A nested JS coordinate array, as a cons tree: `pos` is a leaf position
`[lng, lat]`; `anil`/`acons` build arbitrarily nested arrays. -/
inductive CoordTree where
  | pos (lng lat : ℚ)
  | anil
  | acons (head tail : CoordTree)
deriving DecidableEq, Repr

/-- The positions reached by the stack walk over `geom.coordinates`. The walk
order (the code uses an explicit stack) does not matter: only the running
min/max over the visited positions is used. -/
def positionsOf : CoordTree → List (ℚ × ℚ)
  | .pos lng lat => [(lng, lat)]
  | .anil => []
  | .acons h t => positionsOf h ++ positionsOf t

/-- A feature's geometry: `collection` models `GeometryCollection` (skipped
by the bounding-box walk), `coords` any geometry carrying coordinates. -/
inductive FGeometry where
  | collection
  | coords (c : CoordTree)
deriving DecidableEq, Repr

/-- A boundary feature, restricted to what the viewport fit reads: the
region-code property `properties?.STATE` and the geometry (`none` models a
null geometry). -/
structure GeoFeature where
  propSTATE : Option String
  geometry : Option FGeometry
deriving DecidableEq, Repr

/-- Positions contributed by one feature: none for a null geometry or a
`GeometryCollection`. -/
def featurePositions (f : GeoFeature) : List (ℚ × ℚ) :=
  match f.geometry with
  | none => []
  | some .collection => []
  | some (.coords c) => positionsOf c

/-- Positions of a feature list, concatenated. -/
def allPositions (fs : List GeoFeature) : List (ℚ × ℚ) :=
  fs.foldr (fun f acc => featurePositions f ++ acc) []

/-- The features whose `STATE` property matches the resolved state fips. -/
def matchingFeatures (entry : StateEntry) (fs : List GeoFeature) : List GeoFeature :=
  fs.filter (fun f => f.propSTATE == some entry.fips)

/-- An axis-aligned bounding box `[[minLng, minLat], [maxLng, maxLat]]`. -/
structure BBox where
  minLng : ℚ
  minLat : ℚ
  maxLng : ℚ
  maxLat : ℚ
deriving DecidableEq, Repr

/-- One step of the min/max accumulation: `if (lng < minLng) minLng = lng`
and its three mirrors. `none` models the initial `±Infinity` bounds, i.e. no
position seen yet. -/
def updateBounds (b : Option BBox) (q : ℚ × ℚ) : Option BBox :=
  match b with
  | none => some { minLng := q.1, minLat := q.2, maxLng := q.1, maxLat := q.2 }
  | some bb => some { minLng := min bb.minLng q.1, minLat := min bb.minLat q.2,
                      maxLng := max bb.maxLng q.1, maxLat := max bb.maxLat q.2 }

/-- The bounding box of a position list; `none` when no position was seen
(the code's bounds then stay at `±Infinity` and fail the strictness check). -/
def bboxOf (ps : List (ℚ × ℚ)) : Option BBox := ps.foldl updateBounds none

/-- What the state-filter effect asks of the engine. -/
inductive FitAction where
  | flyToDefault
  | noop
  | fit (b : BBox) (padding : ℚ) (maxZoom : ℚ)
deriving DecidableEq, Repr

/-- The fit-bounds effect of MapView for a state filter: fly to the default
view on a null filter; otherwise resolve the abbreviation, require loaded
geometry and a nonempty match, and fit the computed box (padding 40, maxZoom
10) when it is strictly non-degenerate on both axes. -/
def fitBoundsEffect (table : List StateEntry) (stateFilter : Option String)
    (geo : Option (List GeoFeature)) : FitAction :=
  match stateFilter with
  | none => .flyToDefault
  | some abbr =>
    match table.find? (fun s => s.abbreviation == abbr) with
    | none => .noop
    | some entry =>
      match geo with
      | none => .noop
      | some fs =>
        let ms := matchingFeatures entry fs
        if ms.length = 0 then .noop
        else
          match bboxOf (allPositions ms) with
          | none => .noop
          | some b =>
            if b.minLng < b.maxLng ∧ b.minLat < b.maxLat then .fit b 40 10
            else .noop

/-- A position lies inside a box. -/
def inBounds (b : BBox) (q : ℚ × ℚ) : Prop :=
  b.minLng ≤ q.1 ∧ q.1 ≤ b.maxLng ∧ b.minLat ≤ q.2 ∧ q.2 ≤ b.maxLat

/-- `b` is THE axis-aligned bounding box of `ps`: it bounds every position
and each of its four sides is attained. -/
def isBBoxOf (b : BBox) (ps : List (ℚ × ℚ)) : Prop :=
  (∀ q ∈ ps, inBounds b q) ∧
  (∃ q ∈ ps, q.1 = b.minLng) ∧ (∃ q ∈ ps, q.2 = b.minLat) ∧
  (∃ q ∈ ps, q.1 = b.maxLng) ∧ (∃ q ∈ ps, q.2 = b.maxLat)

instance (b : BBox) (q : ℚ × ℚ) : Decidable (inBounds b q) := by
  unfold inBounds
  infer_instance

instance (b : BBox) (ps : List (ℚ × ℚ)) : Decidable (isBBoxOf b ps) := by
  unfold isBBoxOf
  infer_instance

/-- The feature properties the tooltip update reads (`undefined` as `none`;
the empty string is falsy under the code's `!fips || !name` guard). -/
structure HoverProps where
  geoid : Option String
  displayName : Option String
deriving DecidableEq, Repr

/-- JS falsiness of `properties?.X as string | undefined`. -/
def jsFalsyStr : Option String → Bool
  | none => true
  | some s => s == ""

/-- The emitted tooltip state. -/
structure TooltipState where
  x : ℚ
  y : ℚ
  countyName : String
  stateName : String
  score : Option ℚ
deriving DecidableEq, Repr

/-- `scoresRef.current?.[fips]`. -/
def scoresLookup (scores : Option IndustryScores) (fips : String) : Option CountyScore :=
  scores.bind (fun sc => (sc.find? (fun p => p.1 == fips)).map Prod.snd)

/-- The frame-scheduled hover update of MapTooltip: clear when no feature is
under the pointer or when `GEOID`/`NAME` is missing (or empty, hence falsy);
otherwise emit position, names and the score entry's score (null when the
county has no entry). -/
def tooltipUpdate (feature : Option HoverProps) (scores : Option IndustryScores)
    (px py : ℚ) : Option TooltipState :=
  match feature with
  | none => none
  | some f =>
    if jsFalsyStr f.geoid || jsFalsyStr f.displayName then none
    else
      let entry := scoresLookup scores (f.geoid.getD "")
      some { x := px, y := py,
             countyName := f.displayName.getD "",
             stateName := (entry.map (fun e => e.state)).getD "",
             score := entry.map (fun e => e.score) }

/-! Concrete inputs used by counterexamples and witnesses. -/

/-- Harris County with score 91. -/
def exTX : CountyScore :=
  { fips := "48201", name := "Harris", state := "TX", score := 91,
    establishmentCount := 25, populationPerBiz := 180 }

/-- Autauga County, also score 91 (a tie). -/
def exAL : CountyScore :=
  { fips := "01001", name := "Autauga", state := "AL", score := 91,
    establishmentCount := 12, populationPerBiz := 95 }

/-- A realizable enumeration order of `{"48201": exTX, "01001": exAL}`: JS
enumerates the integer-like key "48201" before the leading-zero string key
"01001" regardless of insertion order, so entries of equal score arrive in
fips-DESCENDING order here. -/
def tieScores : IndustryScores := [("48201", exTX), ("01001", exAL)]

/-- Entry with `establishmentCount` 10 (the spec's normalization scenario). -/
def exEstabA : CountyScore :=
  { fips := "10001", name := "Alpha", state := "DE", score := 50,
    establishmentCount := 10, populationPerBiz := 100 }

/-- Entry with `establishmentCount` 110. -/
def exEstabB : CountyScore :=
  { fips := "10003", name := "Beta", state := "DE", score := 60,
    establishmentCount := 110, populationPerBiz := 200 }

def estabScores : IndustryScores := [("10001", exEstabA), ("10003", exEstabB)]

/-- Two entries with the same `establishmentCount`. -/
def uniformScores : IndustryScores :=
  [("10001", exEstabA),
   ("10005", { fips := "10005", name := "Gamma", state := "DE", score := 70,
               establishmentCount := 10, populationPerBiz := 300 })]

/-- A fully well-formed feature. -/
def featureOkJ : JValue :=
  .jobj [("type", .jstr "Feature"),
         ("geometry", .jobj [("type", .jstr "Polygon")]),
         ("properties", .jobj [("GEOID", .jstr "01001")])]

/-- A feature whose properties lack the `GEOID` join key. -/
def featureNoGeoidJ : JValue :=
  .jobj [("type", .jstr "Feature"),
         ("geometry", .jobj [("type", .jstr "Polygon")]),
         ("properties", .jobj [])]

/-- A collection whose first feature is valid but whose second lacks the join
key: the validator's spot-check accepts it. -/
def spotCheckedCollection : JValue :=
  .jobj [("type", .jstr "FeatureCollection"),
         ("features", .jarr [featureOkJ, featureNoGeoidJ])]

/-- An empty but well-formed feature collection. -/
def emptyFeatureCollection : JValue :=
  .jobj [("type", .jstr "FeatureCollection"), ("features", .jarr [])]

/-- Select industry "a", supersede it with "b", then re-select "a" while the
first fetch for "a" is still outstanding. -/
def c1Trace : List IEvent :=
  [.select (some "a"), .select (some "b"), .select (some "a")]

/-- Select "a" and let its fetch succeed, caching it. -/
def cachedTrace : List IEvent := [.select (some "a"), .resolve 0 true]

/-- Select "a", then supersede it with "b" while the fetch for "a" is
outstanding. -/
def supersededTrace : List IEvent := [.select (some "a"), .select (some "b")]

/-- One demographics load that fails. -/
def failedDemoTrace : List DemoEvent := [.call, .resolveErr 0 "boom"]

/-- A one-state lookup table. -/
def fitTable : List StateEntry :=
  [{ name := "Texas", abbreviation := "TX", fips := "48" }]

/-- One matching feature whose geometry holds the positions (0,0), (1,1). -/
def fitGeo : List GeoFeature :=
  [{ propSTATE := some "48",
     geometry := some (.coords (.acons (.pos 0 0) (.acons (.pos 1 1) .anil))) }]

/-! Helper lemmas about the running-min/max folds. -/

theorem minFold_le_init (l : List ℚ) :
    ∀ a : ℚ, l.foldl (fun m x => if x < m then x else m) a ≤ a := by
  induction l with
  | nil => intro a; simp
  | cons x xs ih =>
    intro a
    simp only [List.foldl_cons]
    refine le_trans (ih _) ?_
    by_cases h : x < a
    · simp [h, le_of_lt h]
    · simp [h]

theorem minFold_le_mem (l : List ℚ) :
    ∀ (a x : ℚ), x ∈ l → l.foldl (fun m y => if y < m then y else m) a ≤ x := by
  induction l with
  | nil => intro a x hx; simp at hx
  | cons y ys ih =>
    intro a x hx
    simp only [List.foldl_cons]
    rcases List.mem_cons.1 hx with h | h
    · subst h
      refine le_trans (minFold_le_init ys _) ?_
      by_cases h : x < a
      · simp [h]
      · simp [h, le_of_not_lt h]
    · exact ih _ _ h

theorem minFold_mem (l : List ℚ) :
    ∀ a : ℚ, l.foldl (fun m x => if x < m then x else m) a = a
      ∨ l.foldl (fun m x => if x < m then x else m) a ∈ l := by
  induction l with
  | nil => intro a; exact Or.inl rfl
  | cons x xs ih =>
    intro a
    simp only [List.foldl_cons]
    by_cases h : x < a
    · simp only [if_pos h]
      rcases ih x with h' | h'
      · exact Or.inr (by rw [h']; exact List.mem_cons_self x xs)
      · exact Or.inr (List.mem_cons_of_mem x h')
    · simp only [if_neg h]
      rcases ih a with h' | h'
      · exact Or.inl h'
      · exact Or.inr (List.mem_cons_of_mem x h')

theorem maxFold_init_le (l : List ℚ) :
    ∀ a : ℚ, a ≤ l.foldl (fun m x => if m < x then x else m) a := by
  induction l with
  | nil => intro a; simp
  | cons x xs ih =>
    intro a
    simp only [List.foldl_cons]
    refine le_trans ?_ (ih _)
    by_cases h : a < x
    · simp [h, le_of_lt h]
    · simp [h]

theorem maxFold_mem_le (l : List ℚ) :
    ∀ (a x : ℚ), x ∈ l → x ≤ l.foldl (fun m y => if m < y then y else m) a := by
  induction l with
  | nil => intro a x hx; simp at hx
  | cons y ys ih =>
    intro a x hx
    simp only [List.foldl_cons]
    rcases List.mem_cons.1 hx with h | h
    · subst h
      refine le_trans ?_ (maxFold_init_le ys _)
      by_cases h : a < x
      · simp [h]
      · simp [h, le_of_not_lt h]
    · exact ih _ _ h

theorem maxFold_mem (l : List ℚ) :
    ∀ a : ℚ, l.foldl (fun m x => if m < x then x else m) a = a
      ∨ l.foldl (fun m x => if m < x then x else m) a ∈ l := by
  induction l with
  | nil => intro a; exact Or.inl rfl
  | cons x xs ih =>
    intro a
    simp only [List.foldl_cons]
    by_cases h : a < x
    · simp only [if_pos h]
      rcases ih x with h' | h'
      · exact Or.inr (by rw [h']; exact List.mem_cons_self x xs)
      · exact Or.inr (List.mem_cons_of_mem x h')
    · simp only [if_neg h]
      rcases ih a with h' | h'
      · exact Or.inl h'
      · exact Or.inr (List.mem_cons_of_mem x h')

theorem jsMin_le {l : List ℚ} {v : ℚ} (hv : v ∈ l) : jsMin l ≤ v := by
  cases l with
  | nil => simp at hv
  | cons a as =>
    rcases List.mem_cons.1 hv with h | h
    · subst h; exact minFold_le_init as v
    · exact minFold_le_mem as a v h

theorem jsMin_mem {l : List ℚ} (h : l ≠ []) : jsMin l ∈ l := by
  cases l with
  | nil => exact absurd rfl h
  | cons a as =>
    rcases minFold_mem as a with h' | h'
    · simp only [jsMin]
      rw [h']
      exact List.mem_cons_self a as
    · exact List.mem_cons_of_mem a (by simpa [jsMin] using h')

theorem le_jsMax {l : List ℚ} {v : ℚ} (hv : v ∈ l) : v ≤ jsMax l := by
  cases l with
  | nil => simp at hv
  | cons a as =>
    rcases List.mem_cons.1 hv with h | h
    · subst h; exact maxFold_init_le as v
    · exact maxFold_mem_le as a v h

theorem jsMax_mem {l : List ℚ} (h : l ≠ []) : jsMax l ∈ l := by
  cases l with
  | nil => exact absurd rfl h
  | cons a as =>
    rcases maxFold_mem as a with h' | h'
    · simp only [jsMax]
      rw [h']
      exact List.mem_cons_self a as
    · exact List.mem_cons_of_mem a (by simpa [jsMax] using h')

/-- C2, counterexample: `topCounties` keeps equal-score entries in the
mapping's enumeration order, not in fips-ascending order. On `tieScores`
(a realizable enumeration order of a two-county object with tied scores) the
output is fips-descending, and differs from the spec-worded `topN`. -/
theorem topCounties_tiebreak_counterexample :
    topCounties tieScores = [exTX, exAL]
    ∧ exTX.score = exAL.score
    ∧ strLeLex exTX.fips exAL.fips = false
    ∧ topCounties tieScores ≠ specTopN tieScores 10 := by
  refine ⟨by decide, by decide, by decide, by decide⟩

/-- C2 (amended): `topCounties` returns the mapping's entries sorted by score
descending — equal scores keeping the mapping's enumeration order (stable
sort), not re-ordered by fips — truncated to the first 10: the output is
descending, has length `min 10 n`, consists of entries of the input, every
excluded entry scores no higher than every included one, and any two entries
ordered by the comparator in the input stay in that order in the sorted
list. -/
theorem topCounties_desc_top10 (l : IndustryScores) :
    (topCounties l).Sorted scoreGe
    ∧ (topCounties l).length = min 10 l.length
    ∧ (∀ a ∈ topCounties l, a ∈ l.map Prod.snd)
    ∧ (∀ a ∈ topCounties l, ∀ b ∈ l.map Prod.snd, b ∉ topCounties l → b.score ≤ a.score)
    ∧ (∀ a b : CountyScore, [a, b].Sublist (l.map Prod.snd) → scoreGe a b →
        [a, b].Sublist (sortedByScore l)) := by
  have hs : (sortedByScore l).Sorted scoreGe :=
    List.sorted_insertionSort scoreGe (l.map Prod.snd)
  refine ⟨?_, ?_, ?_, ?_, ?_⟩
  · exact List.Pairwise.sublist (List.take_sublist _ _) hs
  · simp [topCounties, sortedByScore, List.length_take, List.length_insertionSort]
  · intro a ha
    have : a ∈ sortedByScore l := List.mem_of_mem_take ha
    simpa [sortedByScore, List.mem_insertionSort] using this
  · intro a ha b hb hbn
    have hbs : b ∈ sortedByScore l := by
      simpa [sortedByScore, List.mem_insertionSort] using hb
    have hbd : b ∈ (sortedByScore l).drop 10 := by
      rcases (List.mem_append.1 (by
        rw [List.take_append_drop 10 (sortedByScore l)]; exact hbs)) with h | h
      · exact absurd h hbn
      · exact h
    exact hs.rel_of_mem_take_of_mem_drop ha hbd
  · intro a b hsub hr
    exact List.pair_sublist_insertionSort hr hsub

/-- Witness for `topCounties_desc_top10` at the concrete tied input. -/
theorem topCounties_desc_top10_witness :
    ([exTX, exAL].Sublist (tieScores.map Prod.snd) ∧ scoreGe exTX exAL
      ∧ [exTX, exAL].Sublist (sortedByScore tieScores))
    ∧ (exAL ∈ topCounties tieScores ∧ exAL ∈ tieScores.map Prod.snd) :=
  ⟨⟨by decide, by decide,
    (topCounties_desc_top10 tieScores).2.2.2.2 exTX exAL (by decide) (by decide)⟩,
   ⟨(topCounties_desc_top10 tieScores).2.2.1 exAL (by decide), by decide⟩⟩

/-- C3: with a nonempty mapping whose values for a non-score metric are all
equal, the forced `max = min + 1` makes the normalization denominator exactly
1 (no division by zero) and every entry normalizes to 0, the uniform
minimum-color output. -/
theorem buildFill_uniform_values (entries : IndustryScores) (metric : MetricKey) (v : ℚ)
    (hne : entries ≠ []) (hm : metric ≠ MetricKey.score)
    (hall : ∀ p ∈ entries, metricValue p.2 metric = v) :
    (rangeFor entries metric).2 - (rangeFor entries metric).1 = 1
    ∧ (buildFillColorExpression entries metric).pairs
        = entries.map (fun p => (p.1, (0 : ℚ))) := by
  have hvne : entries.map (fun p => metricValue p.2 metric) ≠ [] := by
    cases entries with
    | nil => exact absurd rfl hne
    | cons a as => simp
  have hvals : ∀ w ∈ entries.map (fun p => metricValue p.2 metric), w = v := by
    intro w hw
    rcases List.mem_map.1 hw with ⟨p, hp, rfl⟩
    exact hall p hp
  have hmin : jsMin (entries.map (fun p => metricValue p.2 metric)) = v :=
    hvals _ (jsMin_mem hvne)
  have hmax : jsMax (entries.map (fun p => metricValue p.2 metric)) = v :=
    hvals _ (jsMax_mem hvne)
  have hrange : rangeFor entries metric = (v, v + 1) := by
    simp [rangeFor, if_neg hm, hmin, hmax]
  constructor
  · rw [hrange]; ring
  · simp only [buildFillColorExpression, hrange]
    refine List.map_congr_left ?_
    intro p hp
    simp [if_neg hm, hall p hp]

/-- Witness for `buildFill_uniform_values` on two entries with equal
`establishmentCount`. -/
theorem buildFill_uniform_values_witness :
    (uniformScores ≠ [] ∧ MetricKey.establishmentCount ≠ MetricKey.score
      ∧ ∀ p ∈ uniformScores, metricValue p.2 MetricKey.establishmentCount = 10)
    ∧ ((rangeFor uniformScores MetricKey.establishmentCount).2
        - (rangeFor uniformScores MetricKey.establishmentCount).1 = 1
      ∧ (buildFillColorExpression uniformScores MetricKey.establishmentCount).pairs
          = uniformScores.map (fun p => (p.1, (0 : ℚ)))) :=
  ⟨⟨by decide, by decide, by decide⟩,
   buildFill_uniform_values uniformScores MetricKey.establishmentCount 10
     (by decide) (by decide) (by decide)⟩

/-- C4: on a nonempty mapping, `buildFillColorExpression` maps each entry's
join key to the raw value for the primary score and otherwise to
`(raw - min) / (max - min) * 100` with `min`/`max` ranging over all entries'
values (in the degenerate `max = min` case every entry's value equals `min`,
and the normalized value is 0 on both the code's adjusted denominator and,
under the 0-valued division-by-zero convention, the spec formula); absent
counties default to 0 via the match default; and the stops are exactly
0→#e5e7eb, 50→#a5b4fc, 100→#3730a3. -/
theorem buildFill_normalization (entries : IndustryScores) (metric : MetricKey)
    (hne : entries ≠ []) :
    (∃ mn mx, mn ∈ entries.map (fun p => metricValue p.2 metric)
      ∧ mx ∈ entries.map (fun p => metricValue p.2 metric)
      ∧ (∀ w ∈ entries.map (fun p => metricValue p.2 metric), mn ≤ w ∧ w ≤ mx)
      ∧ (buildFillColorExpression entries metric).pairs
          = entries.map (fun p => (p.1,
              if metric = MetricKey.score then metricValue p.2 metric
              else (metricValue p.2 metric - mn) / (mx - mn) * 100)))
    ∧ (buildFillColorExpression entries metric).matchDefault = 0
    ∧ (buildFillColorExpression entries metric).stops
        = [((0 : ℚ), "#e5e7eb"), ((50 : ℚ), "#a5b4fc"), ((100 : ℚ), "#3730a3")] := by
  have hvne : entries.map (fun p => metricValue p.2 metric) ≠ [] := by
    cases entries with
    | nil => exact absurd rfl hne
    | cons a as => simp
  refine ⟨⟨jsMin (entries.map (fun p => metricValue p.2 metric)),
          jsMax (entries.map (fun p => metricValue p.2 metric)),
          jsMin_mem hvne, jsMax_mem hvne,
          fun w hw => ⟨jsMin_le hw, le_jsMax hw⟩, ?_⟩, rfl, rfl⟩
  by_cases hm : metric = MetricKey.score
  · subst hm
    simp [buildFillColorExpression]
  · simp only [buildFillColorExpression, rangeFor, if_neg hm]
    refine List.map_congr_left ?_
    intro p hp
    by_cases hdeg : jsMax (entries.map (fun q => metricValue q.2 metric))
        = jsMin (entries.map (fun q => metricValue q.2 metric))
    · have hw : metricValue p.2 metric ∈ entries.map (fun q => metricValue q.2 metric) :=
        List.mem_map_of_mem (fun q => metricValue q.2 metric) hp
      have hle : jsMin (entries.map (fun q => metricValue q.2 metric)) ≤ metricValue p.2 metric :=
        jsMin_le hw
      have hge : metricValue p.2 metric ≤ jsMin (entries.map (fun q => metricValue q.2 metric)) :=
        hdeg ▸ le_jsMax hw
      have heq : metricValue p.2 metric = jsMin (entries.map (fun q => metricValue q.2 metric)) :=
        le_antisymm hge hle
      simp [if_neg hm, if_pos hdeg, hdeg, heq]
    · simp [if_neg hm, if_neg hdeg]

/-- Witness for `buildFill_normalization` on the spec's normalization
scenario (establishment counts 10 and 110). -/
theorem buildFill_normalization_witness :
    estabScores ≠ []
    ∧ ((∃ mn mx, mn ∈ estabScores.map (fun p => metricValue p.2 MetricKey.establishmentCount)
        ∧ mx ∈ estabScores.map (fun p => metricValue p.2 MetricKey.establishmentCount)
        ∧ (∀ w ∈ estabScores.map (fun p => metricValue p.2 MetricKey.establishmentCount),
            mn ≤ w ∧ w ≤ mx)
        ∧ (buildFillColorExpression estabScores MetricKey.establishmentCount).pairs
            = estabScores.map (fun p => (p.1,
                if MetricKey.establishmentCount = MetricKey.score
                then metricValue p.2 MetricKey.establishmentCount
                else (metricValue p.2 MetricKey.establishmentCount - mn) / (mx - mn) * 100)))
      ∧ (buildFillColorExpression estabScores MetricKey.establishmentCount).matchDefault = 0
      ∧ (buildFillColorExpression estabScores MetricKey.establishmentCount).stops
          = [((0 : ℚ), "#e5e7eb"), ((50 : ℚ), "#a5b4fc"), ((100 : ℚ), "#3730a3")]) :=
  ⟨by decide, buildFill_normalization estabScores MetricKey.establishmentCount (by decide)⟩

/-- C5, counterexample: the validator spot-checks only the first feature, so
it accepts a collection whose second feature lacks the `GEOID` join key —
the claimed every-feature validity is not what the code decides. -/
theorem validateGeoJSON_counterexample :
    validateGeoJSON spotCheckedCollection = true
    ∧ specAllFeaturesValid spotCheckedCollection = false :=
  ⟨by decide, by decide⟩

/-- C5 (amended): the validator accepts a payload iff it is a non-null object
carrying the `FeatureCollection` marker with an array of features, where the
FIRST feature (if any) — only the first is spot-checked — carries the
`Feature` marker, a non-null `geometry` object and a string `GEOID` property;
an empty-but-well-formed collection is accepted. -/
theorem validateGeoJSON_spot_check :
    (∀ data : JValue, validateGeoJSON data = true ↔
      (isObjectNonNull data = true
        ∧ propIsStr data "type" "FeatureCollection" = true
        ∧ ∃ fs, getProp data "features" = some (JValue.jarr fs)
            ∧ ∀ f, fs.head? = some f → checkFirstFeature f = true))
    ∧ validateGeoJSON emptyFeatureCollection = true := by
  refine ⟨?_, by decide⟩
  intro data
  constructor
  · intro h
    simp only [validateGeoJSON, Bool.and_eq_true] at h
    obtain ⟨⟨h1, h2⟩, h3⟩ := h
    refine ⟨h1, h2, ?_⟩
    cases hf : getProp data "features" with
    | none => rw [hf] at h3; exact absurd h3 (by simp)
    | some v =>
      cases v with
      | jarr fs =>
        refine ⟨fs, rfl, ?_⟩
        intro f hfirst
        cases fs with
        | nil => simp at hfirst
        | cons g gs =>
          rw [hf] at h3
          have : g = f := by simpa using hfirst
          exact this ▸ h3
      | jnull => rw [hf] at h3; exact absurd h3 (by simp)
      | jbool b => rw [hf] at h3; exact absurd h3 (by simp)
      | jnum q => rw [hf] at h3; exact absurd h3 (by simp)
      | jstr s => rw [hf] at h3; exact absurd h3 (by simp)
      | jobj fl => rw [hf] at h3; exact absurd h3 (by simp)
  · rintro ⟨h1, h2, fs, hf, hcheck⟩
    simp only [validateGeoJSON, Bool.and_eq_true]
    refine ⟨⟨h1, h2⟩, ?_⟩
    rw [hf]
    cases fs with
    | nil => rfl
    | cons g gs => exact hcheck g rfl

/-- Witness for `validateGeoJSON_spot_check` at the spot-checked concrete
collection. -/
theorem validateGeoJSON_spot_check_witness :
    validateGeoJSON spotCheckedCollection = true
    ∧ (isObjectNonNull spotCheckedCollection = true
      ∧ propIsStr spotCheckedCollection "type" "FeatureCollection" = true
      ∧ ∃ fs, getProp spotCheckedCollection "features" = some (JValue.jarr fs)
          ∧ ∀ f, fs.head? = some f → checkFirstFeature f = true) :=
  ⟨by decide, (validateGeoJSON_spot_check.1 spotCheckedCollection).1 (by decide)⟩

/-! Invariant of the demographics store: at most one fetch entry is
unsettled, and while one is, `promiseRef` points at it and no data is
cached. -/

def DemoInv (s : DemoState) : Prop :=
  demoOutstandingCount s ≤ 1
  ∧ ∀ p, demoOutstanding s p = true → s.promiseRef = some p ∧ s.data = none

theorem demoOutstanding_of_unresolved {s : DemoState} {f : DemoFetch}
    (hf : f ∈ s.fetches) (hr : f.resolved = false) : demoOutstanding s f.pid = true := by
  simp only [demoOutstanding, List.any_eq_true]
  exact ⟨f, hf, by simp [hr]⟩

theorem unresolved_filter_nil {s : DemoState} (hp : s.promiseRef = none)
    (h2 : ∀ p, demoOutstanding s p = true → s.promiseRef = some p ∧ s.data = none) :
    s.fetches.filter (fun f => !f.resolved) = [] := by
  cases hf : s.fetches.filter (fun f => !f.resolved) with
  | nil => rfl
  | cons f fs =>
    have hmem : f ∈ s.fetches.filter (fun f => !f.resolved) := by
      rw [hf]; exact List.mem_cons_self f fs
    have hr : f.resolved = false := by
      have := List.of_mem_filter hmem
      simpa using this
    have hout := demoOutstanding_of_unresolved (List.mem_of_mem_filter hmem) hr
    have := (h2 f.pid hout).1
    rw [hp] at this
    exact absurd this (by simp)

theorem mark_filter_length (fs : List DemoFetch) (p : Nat) :
    ((markDemoResolved fs p).filter (fun f => !f.resolved)).length
      ≤ (fs.filter (fun f => !f.resolved)).length := by
  rw [← List.countP_eq_length_filter, ← List.countP_eq_length_filter,
      markDemoResolved, List.countP_map]
  refine List.countP_mono_left ?_
  intro f hf h
  by_cases hpid : f.pid = p
  · simp [Function.comp, hpid] at h
  · simpa [Function.comp, hpid] using h

theorem mem_markDemoResolved {fs : List DemoFetch} {p : Nat} {f' : DemoFetch}
    (h : f' ∈ markDemoResolved fs p) (hr : f'.resolved = false) :
    f' ∈ fs ∧ f'.pid ≠ p := by
  rcases List.mem_map.1 h with ⟨f, hf, heq⟩
  by_cases hpid : f.pid = p
  · rw [if_pos hpid] at heq
    rw [← heq] at hr
    simp at hr
  · rw [if_neg hpid] at heq
    exact ⟨heq ▸ hf, heq ▸ hpid⟩

theorem demoInv_init : DemoInv demoInit := by
  constructor
  · simp [demoInit, demoOutstandingCount]
  · intro p h
    simp [demoInit, demoOutstanding] at h

theorem no_outstanding_after_mark {s : DemoState} {p q : Nat}
    (h2 : ∀ r, demoOutstanding s r = true → s.promiseRef = some r ∧ s.data = none)
    (hout : demoOutstanding s p = true)
    (hq : ((markDemoResolved s.fetches p).any (fun f => f.pid == q && !f.resolved)) = true) :
    False := by
  rw [List.any_eq_true] at hq
  rcases hq with ⟨f', hf', hfq⟩
  rw [Bool.and_eq_true] at hfq
  have hr : f'.resolved = false := by simpa using hfq.2
  obtain ⟨hmem, hne⟩ := mem_markDemoResolved hf' hr
  have houtq := demoOutstanding_of_unresolved hmem hr
  have hpq := (h2 f'.pid houtq).1
  have hpp := (h2 p hout).1
  rw [hpq] at hpp
  have : f'.pid = p := by injection hpp
  exact hne this

theorem demoInv_step (s : DemoState) (e : DemoEvent) (h : DemoInv s) :
    DemoInv (demoStep s e) := by
  obtain ⟨h1, h2⟩ := h
  cases e with
  | call =>
    show DemoInv (ensureLoadedStart s).2
    cases hd : s.data with
    | some d => simpa [ensureLoadedStart, hd] using ⟨h1, h2⟩
    | none =>
      cases hp : s.promiseRef with
      | some p => simpa [ensureLoadedStart, hd, hp] using ⟨h1, h2⟩
      | none =>
        by_cases hfe : s.fetched && s.error.isSome
        · simpa [ensureLoadedStart, hd, hp, hfe] using ⟨h1, h2⟩
        · have hnil := unresolved_filter_nil hp h2
          have hstate : (ensureLoadedStart s).2 =
              { s with fetched := true, loading := true, error := none,
                       promiseRef := some s.nextId,
                       fetches := s.fetches ++ [{ pid := s.nextId, resolved := false }],
                       nextId := s.nextId + 1 } := by
            simp [ensureLoadedStart, hd, hp, hfe]
          rw [hstate]
          constructor
          · simp [demoOutstandingCount, List.filter_append, hnil]
          · intro q hq
            simp only [demoOutstanding, List.any_append, Bool.or_eq_true] at hq
            rcases hq with hq | hq
            · rw [List.any_eq_true] at hq
              rcases hq with ⟨f, hf, hfq⟩
              rw [Bool.and_eq_true] at hfq
              have hr : f.resolved = false := by simpa using hfq.2
              have hout := demoOutstanding_of_unresolved hf hr
              have := (h2 f.pid hout).1
              rw [hp] at this
              exact absurd this (by simp)
            · have : s.nextId = q := by simpa using hq
              subst this
              exact ⟨rfl, hd⟩
  | resolveOk p d =>
    show DemoInv (demoResolveOk s p d)
    by_cases hout : demoOutstanding s p
    · have hstate : demoResolveOk s p d =
          { s with data := some d, loading := false, error := none,
                   fetches := markDemoResolved s.fetches p } := by
        simp [demoResolveOk, hout]
      rw [hstate]
      constructor
      · exact le_trans (mark_filter_length s.fetches p) h1
      · intro q hq
        exact absurd hq (by
          intro hq
          exact no_outstanding_after_mark h2 hout hq)
    · simpa [demoResolveOk, hout] using ⟨h1, h2⟩
  | resolveErr p m =>
    show DemoInv (demoResolveErr s p m)
    by_cases hout : demoOutstanding s p
    · have hstate : demoResolveErr s p m =
          { s with data := none, loading := false, error := some m,
                   promiseRef := none, fetches := markDemoResolved s.fetches p } := by
        simp [demoResolveErr, hout]
      rw [hstate]
      constructor
      · exact le_trans (mark_filter_length s.fetches p) h1
      · intro q hq
        exact absurd hq (by
          intro hq
          exact no_outstanding_after_mark h2 hout hq)
    · simpa [demoResolveErr, hout] using ⟨h1, h2⟩

theorem demoInv_run (evs : List DemoEvent) : DemoInv (runDemo evs) := by
  suffices h : ∀ s, DemoInv s → DemoInv (evs.foldl demoStep s) from h demoInit demoInv_init
  induction evs with
  | nil => intro s hs; exact hs
  | cons e evs ih =>
    intro s hs
    exact ih (demoStep s e) (demoInv_step s e hs)

/-! Helper lemmas about the industry-score effect. -/

theorem markICancelled_length (fs : List IFetch) : ∀ i, (markICancelled fs i).length = fs.length := by
  induction fs with
  | nil => intro i; rfl
  | cons f fs ih =>
    intro i
    cases i with
    | zero => simp [markICancelled]
    | succ j => simp [markICancelled, ih j]

theorem cancelActive_fetches_length (s : IState) :
    (cancelActive s).fetches.length = s.fetches.length := by
  cases ha : s.active with
  | none => simp [cancelActive, ha]
  | some i => simp [cancelActive, ha, markICancelled_length]

theorem cancelActive_cache (s : IState) : (cancelActive s).cache = s.cache := by
  cases ha : s.active with
  | none => simp [cancelActive, ha]
  | some i => simp [cancelActive, ha]

theorem cancelActive_industries (s : IState) :
    (cancelActive s).industries = s.industries := by
  cases ha : s.active with
  | none => simp [cancelActive, ha]
  | some i => simp [cancelActive, ha]

theorem select_cached_no_fetch (s : IState) (key : String)
    (hc : s.cache.contains key = true) :
    (selectIndustry s (some key) false).fetches.length = s.fetches.length := by
  have hc' : key ∈ (cancelActive s).cache := by
    rw [cancelActive_cache]
    simpa using hc
  by_cases hfmt : idFormatTest key
  · by_cases hcat : key ∈ (cancelActive s).industries
    · simp [selectIndustry, hfmt, hcat, hc', cancelActive_fetches_length]
    · simp [selectIndustry, hfmt, hcat, cancelActive_fetches_length]
  · simp [selectIndustry, hfmt, cancelActive_fetches_length]

theorem iResolve_cancelled_no_commit (s : IState) (i : Nat) (f : IFetch)
    (hget : s.fetches[i]? = some f) (hc : f.cancelled = true) (hr : f.resolved = false) :
    (iResolve s i true).cache = s.cache ∧ (iResolve s i true).rawScores = s.rawScores := by
  simp [iResolve, hget, hr, hc]

/-- C1, counterexample: industry-score fetches are deduplicated only against
the completed cache, not against in-flight fetches. Selecting "a", then "b",
then "a" again leaves two outstanding fetches for the key "a" — more than one
network fetch for the same cache key is outstanding at once. -/
theorem perKeyDedup_counterexample :
    iOutstandingFor (runI ["a", "b"] c1Trace) "a" = 2
    ∧ ¬ atMostOnePerKey (runI ["a", "b"] c1Trace) :=
  ⟨by decide, fun h => absurd (h "a") (by decide)⟩

/-- C1 (amended): demographics fetches are deduplicated via in-flight-promise
sharing — at most one outstanding fetch ever, and any caller arriving while
one is pending awaits that same promise without starting a new fetch.
Industry-score fetches are deduplicated only against the completed-results
cache: selecting a cached id starts no fetch, and a superseded (cancelled)
fetch's resolution never commits to the cache or the displayed scores — but
re-selecting an id whose only fetch was superseded can start a second
concurrent fetch for that key. -/
theorem fetch_dedup_amended :
    (∀ evs : List DemoEvent, demoOutstandingCount (runDemo evs) ≤ 1)
    ∧ (∀ evs : List DemoEvent, ∀ p, demoOutstanding (runDemo evs) p = true →
        ensureLoadedStart (runDemo evs) = (.awaits p, runDemo evs))
    ∧ (∀ (catalog : List String) (ievs : List IEvent) (key : String),
        (runI catalog ievs).cache.contains key = true →
        (iStep (runI catalog ievs) (.select (some key))).fetches.length
          = (runI catalog ievs).fetches.length)
    ∧ (∀ (catalog : List String) (ievs : List IEvent) (i : Nat) (f : IFetch),
        (runI catalog ievs).fetches[i]? = some f →
        f.cancelled = true → f.resolved = false →
        (iResolve (runI catalog ievs) i true).cache = (runI catalog ievs).cache
        ∧ (iResolve (runI catalog ievs) i true).rawScores = (runI catalog ievs).rawScores) := by
  refine ⟨fun evs => (demoInv_run evs).1, fun evs p hout => ?_,
    fun catalog ievs key hc => select_cached_no_fetch _ key hc,
    fun catalog ievs i f hget hc hr => iResolve_cancelled_no_commit _ i f hget hc hr⟩
  have h2 := (demoInv_run evs).2 p hout
  simp [ensureLoadedStart, h2.1, h2.2]

/-- Witness for `fetch_dedup_amended` at concrete traces. -/
theorem fetch_dedup_amended_witness :
    (demoOutstanding (runDemo [DemoEvent.call]) 0 = true
      ∧ ensureLoadedStart (runDemo [DemoEvent.call]) = (.awaits 0, runDemo [DemoEvent.call]))
    ∧ ((runI ["a"] cachedTrace).cache.contains "a" = true
      ∧ (iStep (runI ["a"] cachedTrace) (.select (some "a"))).fetches.length
          = (runI ["a"] cachedTrace).fetches.length)
    ∧ ((runI ["a", "b"] supersededTrace).fetches[0]?
          = some { key := "a", cancelled := true, resolved := false }
      ∧ (iResolve (runI ["a", "b"] supersededTrace) 0 true).cache
          = (runI ["a", "b"] supersededTrace).cache) :=
  ⟨⟨by decide, fetch_dedup_amended.2.1 [DemoEvent.call] 0 (by decide)⟩,
   ⟨by decide, fetch_dedup_amended.2.2.1 ["a"] cachedTrace "a" (by decide)⟩,
   ⟨by decide, (fetch_dedup_amended.2.2.2 ["a", "b"] supersededTrace 0
      { key := "a", cancelled := true, resolved := false }
      (by decide) (by decide) (by decide)).1⟩⟩

/-- C6: selecting an industry id that fails the allowed-identifier pattern or
is absent from the loaded catalog sets a validation error with no score data
and starts no network fetch for it. -/
theorem selectIndustry_invalid (s : IState) (key : String)
    (h : idFormatTest key = false ∨ s.industries.contains key = false) :
    (selectIndustry s (some key) false).scoresError.isSome = true
    ∧ (selectIndustry s (some key) false).rawScores = none
    ∧ (selectIndustry s (some key) false).scoresLoading = false
    ∧ (selectIndustry s (some key) false).fetches.length = s.fetches.length := by
  rcases h with h | h
  · simp [selectIndustry, h, cancelActive_fetches_length]
  · by_cases hfmt : idFormatTest key
    · have h' : key ∉ (cancelActive s).industries := by
        rw [cancelActive_industries]
        simpa using h
      simp [selectIndustry, hfmt, h', cancelActive_fetches_length]
    · simp [selectIndustry, hfmt, cancelActive_fetches_length]

/-- Witness for `selectIndustry_invalid`: the spec's "bogus-id" scenario. -/
theorem selectIndustry_invalid_witness :
    (iInit ["coffee-shops"]).industries.contains "bogus-id" = false
    ∧ ((selectIndustry (iInit ["coffee-shops"]) (some "bogus-id") false).scoresError.isSome = true
      ∧ (selectIndustry (iInit ["coffee-shops"]) (some "bogus-id") false).rawScores = none
      ∧ (selectIndustry (iInit ["coffee-shops"]) (some "bogus-id") false).scoresLoading = false
      ∧ (selectIndustry (iInit ["coffee-shops"]) (some "bogus-id") false).fetches.length
          = (iInit ["coffee-shops"]).fetches.length) :=
  ⟨by decide,
   selectIndustry_invalid (iInit ["coffee-shops"]) "bogus-id" (Or.inr (by decide))⟩

/-- C7: from a failed demographics state, `ensureLoaded` returns null with no
fetch and no state change; `retry` clears the error and re-arms, so the next
`ensureLoaded` starts exactly one new fetch, and its success caches the data
with the error cleared. -/
theorem demographics_retry (s : DemoState) (d : Nat)
    (h1 : s.data = none) (h2 : s.promiseRef = none) (h3 : s.fetched = true)
    (h4 : s.error.isSome = true) :
    ensureLoadedStart s = (.ret none, s)
    ∧ (demoRetry s).error = none
    ∧ (ensureLoadedStart (demoRetry s)).1 = .awaits s.nextId
    ∧ ((ensureLoadedStart (demoRetry s)).2).fetches.length = s.fetches.length + 1
    ∧ (demoResolveOk (ensureLoadedStart (demoRetry s)).2 s.nextId d).data = some d
    ∧ (demoResolveOk (ensureLoadedStart (demoRetry s)).2 s.nextId d).error = none := by
  have hfirst : ensureLoadedStart s = (.ret none, s) := by
    simp [ensureLoadedStart, h1, h2, h3, h4]
  have hretry : ensureLoadedStart (demoRetry s) =
      (.awaits s.nextId,
       { s with fetched := true, loading := true, error := none,
                data := none, promiseRef := some s.nextId,
                fetches := s.fetches ++ [{ pid := s.nextId, resolved := false }],
                nextId := s.nextId + 1 }) := by
    simp [ensureLoadedStart, demoRetry]
  have hout : demoOutstanding (ensureLoadedStart (demoRetry s)).2 s.nextId = true := by
    rw [hretry]
    simp [demoOutstanding, List.any_append]
  refine ⟨hfirst, rfl, by rw [hretry], by rw [hretry]; simp, ?_, ?_⟩
  · simp [demoResolveOk, hout]
  · simp [demoResolveOk, hout]

/-- Witness for `demographics_retry`: the failed state reached by one failing
load, retried and then succeeding with payload 42. -/
theorem demographics_retry_witness :
    ((runDemo failedDemoTrace).data = none
      ∧ (runDemo failedDemoTrace).promiseRef = none
      ∧ (runDemo failedDemoTrace).fetched = true
      ∧ (runDemo failedDemoTrace).error.isSome = true)
    ∧ (ensureLoadedStart (runDemo failedDemoTrace) = (.ret none, runDemo failedDemoTrace)
      ∧ (demoRetry (runDemo failedDemoTrace)).error = none
      ∧ (ensureLoadedStart (demoRetry (runDemo failedDemoTrace))).1
          = .awaits (runDemo failedDemoTrace).nextId
      ∧ ((ensureLoadedStart (demoRetry (runDemo failedDemoTrace))).2).fetches.length
          = (runDemo failedDemoTrace).fetches.length + 1
      ∧ (demoResolveOk (ensureLoadedStart (demoRetry (runDemo failedDemoTrace))).2
          (runDemo failedDemoTrace).nextId 42).data = some 42
      ∧ (demoResolveOk (ensureLoadedStart (demoRetry (runDemo failedDemoTrace))).2
          (runDemo failedDemoTrace).nextId 42).error = none) :=
  ⟨⟨by decide, by decide, by decide, by decide⟩,
   demographics_retry (runDemo failedDemoTrace) 42
     (by decide) (by decide) (by decide) (by decide)⟩

/-! The theme-restyle settle logic. -/

theorem swapStep_first (e : SwapEvent) :
    swapStep swapStart e = { settled := true, mapReady := true, commits := 1 } := by
  cases e <;> rfl

theorem swapStep_fix (s : SwapState) (hs : s.settled = true) (e : SwapEvent) :
    swapStep s e = s := by
  cases e <;> simp [swapStep, hs]

theorem foldl_swap_fix (rest : List (ℚ × SwapEvent)) :
    ∀ s : SwapState, s.settled = true →
      rest.foldl (fun s e => swapStep s e.2) s = s := by
  induction rest with
  | nil => intro s _; rfl
  | cons e rest ih =>
    intro s hs
    rw [List.foldl_cons, swapStep_fix s hs]
    exact ih s hs

theorem runSwap_cons (e : ℚ × SwapEvent) (rest : List (ℚ × SwapEvent)) :
    runSwap (e :: rest) = { settled := true, mapReady := true, commits := 1 } := by
  rw [runSwap, List.foldl_cons, swapStep_first]
  exact foldl_swap_fix rest _ rfl

/-- C8: a swap whose trace is complete (the engine signal arrives at some
time, or the 5000 ms fallback fires) leaves the restyling state: already
after the trace's first event — whichever of the two it is — `mapReady` is
true, and over the whole swap the ready transition is committed exactly once,
so neither a missed signal nor a signal-plus-timeout race leaves the system
stuck or double-committed. -/
theorem restyle_settles (evs : List (ℚ × SwapEvent)) (h : swapTraceComplete evs) :
    (runSwap evs).mapReady = true ∧ (runSwap evs).commits = 1
    ∧ ∀ pre suf, evs = pre ++ suf → pre ≠ [] →
        (runSwap pre).mapReady = true ∧ (runSwap pre).commits = 1 := by
  have hne : evs ≠ [] := by
    intro hnil
    subst hnil
    rcases h with ⟨t, ht⟩ | ht
    · simp at ht
    · simp at ht
  obtain ⟨e, rest, rfl⟩ : ∃ e rest, evs = e :: rest := by
    cases evs with
    | nil => exact absurd rfl hne
    | cons e rest => exact ⟨e, rest, rfl⟩
  refine ⟨by rw [runSwap_cons], by rw [runSwap_cons], ?_⟩
  intro pre suf heq hpre
  obtain ⟨p, ps, rfl⟩ : ∃ p ps, pre = p :: ps := by
    cases pre with
    | nil => exact absurd rfl hpre
    | cons p ps => exact ⟨p, ps, rfl⟩
  exact ⟨by rw [runSwap_cons], by rw [runSwap_cons]⟩

/-- Witness for `restyle_settles`: the fallback timer alone settles the
swap. -/
theorem restyle_settles_witness :
    swapTraceComplete [((5000 : ℚ), SwapEvent.timeoutFire)]
    ∧ (runSwap [((5000 : ℚ), SwapEvent.timeoutFire)]).mapReady = true
    ∧ (runSwap [((5000 : ℚ), SwapEvent.timeoutFire)]).commits = 1 :=
  ⟨Or.inr (by decide),
   (restyle_settles [((5000 : ℚ), SwapEvent.timeoutFire)] (Or.inr (by decide))).1,
   (restyle_settles [((5000 : ℚ), SwapEvent.timeoutFire)] (Or.inr (by decide))).2.1⟩

/-- C10: the frame-scheduled tooltip update clears the state when no feature
is under the pointer or the feature lacks (or has a falsy) `GEOID` or `NAME`;
any emitted tooltip comes from a feature carrying both, with the county name
displayed and the score taken from the lookup — null when the county has no
score entry. -/
theorem tooltip_guard (feature : Option HoverProps) (scores : Option IndustryScores)
    (px py : ℚ) :
    (feature = none → tooltipUpdate feature scores px py = none)
    ∧ (∀ f, feature = some f →
        (jsFalsyStr f.geoid = true ∨ jsFalsyStr f.displayName = true) →
        tooltipUpdate feature scores px py = none)
    ∧ (∀ t, tooltipUpdate feature scores px py = some t →
        ∃ f fips name, feature = some f ∧ f.geoid = some fips ∧ fips ≠ ""
          ∧ f.displayName = some name ∧ name ≠ ""
          ∧ t.countyName = name
          ∧ t.score = (scoresLookup scores fips).map (fun e => e.score))
    ∧ (∀ f fips name, feature = some f → f.geoid = some fips → fips ≠ "" →
        f.displayName = some name → name ≠ "" → scoresLookup scores fips = none →
        tooltipUpdate feature scores px py
          = some { x := px, y := py, countyName := name, stateName := "", score := none }) := by
  refine ⟨?_, ?_, ?_, ?_⟩
  · intro h; subst h; rfl
  · intro f hf hfal
    subst hf
    rcases hfal with h | h <;> simp [tooltipUpdate, h]
  · intro t ht
    cases feature with
    | none => simp [tooltipUpdate] at ht
    | some f =>
      by_cases hg : jsFalsyStr f.geoid = true
      · simp [tooltipUpdate, hg] at ht
      · by_cases hd : jsFalsyStr f.displayName = true
        · simp [tooltipUpdate, hd] at ht
        · cases hge : f.geoid with
          | none => rw [hge] at hg; exact absurd rfl hg
          | some fips =>
            cases hdn : f.displayName with
            | none => rw [hdn] at hd; exact absurd rfl hd
            | some name =>
              have hfips : fips ≠ "" := by
                rw [hge] at hg
                simpa [jsFalsyStr] using hg
              have hname : name ≠ "" := by
                rw [hdn] at hd
                simpa [jsFalsyStr] using hd
              have hg' : jsFalsyStr f.geoid = false := by
                rw [hge]; simpa [jsFalsyStr] using hfips
              have hd' : jsFalsyStr f.displayName = false := by
                rw [hdn]; simpa [jsFalsyStr] using hname
              have hrec : tooltipUpdate (some f) scores px py
                  = some ⟨px, py, name, ((scoresLookup scores fips).map (fun e => e.state)).getD "", (scoresLookup scores fips).map (fun e => e.score)⟩ := by
                simp [tooltipUpdate, jsFalsyStr, hge, hdn, hfips, hname]
              rw [ht] at hrec
              obtain rfl := Option.some.inj hrec
              exact ⟨f, fips, name, rfl, hge, hfips, hdn, hname, rfl, rfl⟩
  · intro f fips name hf hge hfips hdn hname hlook
    subst hf
    have hg : jsFalsyStr f.geoid = false := by
      rw [hge]; simpa [jsFalsyStr] using hfips
    have hd : jsFalsyStr f.displayName = false := by
      rw [hdn]; simpa [jsFalsyStr] using hname
    simp [tooltipUpdate, jsFalsyStr, hge, hdn, hfips, hname, hlook]

/-- Witness for `tooltip_guard`: a hover with both properties but no score
entry emits a tooltip with null score; a hover lacking `GEOID` clears. -/
theorem tooltip_guard_witness :
    scoresLookup none "01001" = none
    ∧ tooltipUpdate (some { geoid := some "01001", displayName := some "Autauga" }) none 3 4
        = some { x := 3, y := 4, countyName := "Autauga", stateName := "", score := none }
    ∧ tooltipUpdate (some { geoid := none, displayName := some "Autauga" }) none 3 4 = none :=
  ⟨rfl,
   (tooltip_guard (some { geoid := some "01001", displayName := some "Autauga" }) none 3 4).2.2.2
     { geoid := some "01001", displayName := some "Autauga" } "01001" "Autauga"
     rfl rfl (by decide) rfl (by decide) rfl,
   (tooltip_guard (some { geoid := none, displayName := some "Autauga" }) none 3 4).2.1
     { geoid := none, displayName := some "Autauga" } rfl (Or.inl rfl)⟩

/-! The bounding box computed by the min/max accumulation. -/

theorem foldl_updateBounds (ps : List (ℚ × ℚ)) :
    ∀ bb : BBox, ∃ b : BBox, ps.foldl updateBounds (some bb) = some b
      ∧ (∀ q ∈ ps, inBounds b q)
      ∧ (b.minLng ≤ bb.minLng ∧ b.minLat ≤ bb.minLat
          ∧ bb.maxLng ≤ b.maxLng ∧ bb.maxLat ≤ b.maxLat)
      ∧ (b.minLng = bb.minLng ∨ ∃ q ∈ ps, q.1 = b.minLng)
      ∧ (b.minLat = bb.minLat ∨ ∃ q ∈ ps, q.2 = b.minLat)
      ∧ (b.maxLng = bb.maxLng ∨ ∃ q ∈ ps, q.1 = b.maxLng)
      ∧ (b.maxLat = bb.maxLat ∨ ∃ q ∈ ps, q.2 = b.maxLat) := by
  induction ps with
  | nil =>
    intro bb
    exact ⟨bb, rfl, by simp, ⟨le_refl _, le_refl _, le_refl _, le_refl _⟩,
           Or.inl rfl, Or.inl rfl, Or.inl rfl, Or.inl rfl⟩
  | cons q ps ih =>
    intro bb
    obtain ⟨b, hfold, hbounds, hnest, ha1, ha2, ha3, ha4⟩ :=
      ih { minLng := min bb.minLng q.1, minLat := min bb.minLat q.2,
           maxLng := max bb.maxLng q.1, maxLat := max bb.maxLat q.2 }
    refine ⟨b, ?_, ?_, ?_, ?_, ?_, ?_, ?_⟩
    · rw [List.foldl_cons]
      exact hfold
    · intro q' hq'
      rcases List.mem_cons.1 hq' with rfl | hq'
      · exact ⟨le_trans hnest.1 (min_le_right _ _),
               le_trans (le_max_right _ _) hnest.2.2.1,
               le_trans hnest.2.1 (min_le_right _ _),
               le_trans (le_max_right _ _) hnest.2.2.2⟩
      · exact hbounds q' hq'
    · exact ⟨le_trans hnest.1 (min_le_left _ _),
             le_trans hnest.2.1 (min_le_left _ _),
             le_trans (le_max_left _ _) hnest.2.2.1,
             le_trans (le_max_left _ _) hnest.2.2.2⟩
    · rcases ha1 with h | ⟨q', hq', hv⟩
      · rcases min_cases bb.minLng q.1 with ⟨hm, _⟩ | ⟨hm, _⟩
        · exact Or.inl (h.trans hm)
        · exact Or.inr ⟨q, List.mem_cons_self q ps, (h.trans hm).symm⟩
      · exact Or.inr ⟨q', List.mem_cons_of_mem q hq', hv⟩
    · rcases ha2 with h | ⟨q', hq', hv⟩
      · rcases min_cases bb.minLat q.2 with ⟨hm, _⟩ | ⟨hm, _⟩
        · exact Or.inl (h.trans hm)
        · exact Or.inr ⟨q, List.mem_cons_self q ps, (h.trans hm).symm⟩
      · exact Or.inr ⟨q', List.mem_cons_of_mem q hq', hv⟩
    · rcases ha3 with h | ⟨q', hq', hv⟩
      · rcases max_cases bb.maxLng q.1 with ⟨hm, _⟩ | ⟨hm, _⟩
        · exact Or.inl (h.trans hm)
        · exact Or.inr ⟨q, List.mem_cons_self q ps, (h.trans hm).symm⟩
      · exact Or.inr ⟨q', List.mem_cons_of_mem q hq', hv⟩
    · rcases ha4 with h | ⟨q', hq', hv⟩
      · rcases max_cases bb.maxLat q.2 with ⟨hm, _⟩ | ⟨hm, _⟩
        · exact Or.inl (h.trans hm)
        · exact Or.inr ⟨q, List.mem_cons_self q ps, (h.trans hm).symm⟩
      · exact Or.inr ⟨q', List.mem_cons_of_mem q hq', hv⟩

theorem bboxOf_cons (q : ℚ × ℚ) (ps : List (ℚ × ℚ)) :
    ∃ b : BBox, bboxOf (q :: ps) = some b ∧ isBBoxOf b (q :: ps) := by
  obtain ⟨b, hfold, hbounds, hnest, ha1, ha2, ha3, ha4⟩ :=
    foldl_updateBounds ps { minLng := q.1, minLat := q.2, maxLng := q.1, maxLat := q.2 }
  refine ⟨b, ?_, ?_, ?_, ?_, ?_, ?_⟩
  · rw [bboxOf, List.foldl_cons]
    exact hfold
  · intro q' hq'
    rcases List.mem_cons.1 hq' with rfl | hq'
    · exact ⟨hnest.1, hnest.2.2.1, hnest.2.1, hnest.2.2.2⟩
    · exact hbounds q' hq'
  · rcases ha1 with h | ⟨q', hq', hv⟩
    · exact ⟨q, List.mem_cons_self q ps, h.symm⟩
    · exact ⟨q', List.mem_cons_of_mem q hq', hv⟩
  · rcases ha2 with h | ⟨q', hq', hv⟩
    · exact ⟨q, List.mem_cons_self q ps, h.symm⟩
    · exact ⟨q', List.mem_cons_of_mem q hq', hv⟩
  · rcases ha3 with h | ⟨q', hq', hv⟩
    · exact ⟨q, List.mem_cons_self q ps, h.symm⟩
    · exact ⟨q', List.mem_cons_of_mem q hq', hv⟩
  · rcases ha4 with h | ⟨q', hq', hv⟩
    · exact ⟨q, List.mem_cons_self q ps, h.symm⟩
    · exact ⟨q', List.mem_cons_of_mem q hq', hv⟩

theorem bboxOf_sound {ps : List (ℚ × ℚ)} {b : BBox} (h : bboxOf ps = some b) :
    isBBoxOf b ps := by
  cases ps with
  | nil => simp [bboxOf] at h
  | cons q ps =>
    obtain ⟨b', hb', hbox⟩ := bboxOf_cons q ps
    rw [h] at hb'
    obtain rfl := Option.some.inj hb'
    exact hbox

theorem bboxOf_ne_none {ps : List (ℚ × ℚ)} (h : ps ≠ []) :
    ∃ b : BBox, bboxOf ps = some b := by
  cases ps with
  | nil => exact absurd rfl h
  | cons q ps =>
    obtain ⟨b, hb, _⟩ := bboxOf_cons q ps
    exact ⟨b, hb⟩

theorem isBBoxOf_unique {b b' : BBox} {ps : List (ℚ × ℚ)}
    (h : isBBoxOf b ps) (h' : isBBoxOf b' ps) : b = b' := by
  obtain ⟨hb, ⟨q1, hq1, hv1⟩, ⟨q2, hq2, hv2⟩, ⟨q3, hq3, hv3⟩, ⟨q4, hq4, hv4⟩⟩ := h
  obtain ⟨hb', ⟨p1, hp1, hw1⟩, ⟨p2, hp2, hw2⟩, ⟨p3, hp3, hw3⟩, ⟨p4, hp4, hw4⟩⟩ := h'
  have e1 : b.minLng = b'.minLng :=
    le_antisymm (hw1 ▸ (hb p1 hp1).1) (hv1 ▸ (hb' q1 hq1).1)
  have e2 : b.minLat = b'.minLat :=
    le_antisymm (hw2 ▸ (hb p2 hp2).2.2.1) (hv2 ▸ (hb' q2 hq2).2.2.1)
  have e3 : b.maxLng = b'.maxLng :=
    le_antisymm (hv3 ▸ (hb' q3 hq3).2.1) (hw3 ▸ (hb p3 hp3).2.1)
  have e4 : b.maxLat = b'.maxLat :=
    le_antisymm (hv4 ▸ (hb' q4 hq4).2.2.2) (hw4 ▸ (hb p4 hp4).2.2.2)
  cases b
  cases b'
  simp_all

/-- C9: for a non-null state filter, the effect requests a viewport fit
exactly when the abbreviation resolves in the lookup table, the cached
geometry is loaded, at least one feature's region-code property matches, and
the bounding box of all positions of the matching features (skipping null and
GeometryCollection geometries) is strictly non-degenerate on both axes — and
the request then carries exactly that box with padding 40 and maxZoom 10. -/
theorem viewport_fit_characterization (table : List StateEntry) (abbr : String)
    (geo : Option (List GeoFeature)) :
    (∀ b p z, fitBoundsEffect table (some abbr) geo = .fit b p z →
      p = 40 ∧ z = 10 ∧
      ∃ entry fs, table.find? (fun s => s.abbreviation == abbr) = some entry
        ∧ geo = some fs
        ∧ matchingFeatures entry fs ≠ []
        ∧ isBBoxOf b (allPositions (matchingFeatures entry fs))
        ∧ b.minLng < b.maxLng ∧ b.minLat < b.maxLat)
    ∧ (∀ entry fs b,
        table.find? (fun s => s.abbreviation == abbr) = some entry →
        geo = some fs →
        isBBoxOf b (allPositions (matchingFeatures entry fs)) →
        b.minLng < b.maxLng → b.minLat < b.maxLat →
        fitBoundsEffect table (some abbr) geo = .fit b 40 10) := by
  constructor
  · intro b p z hfit
    cases hfind : table.find? (fun s => s.abbreviation == abbr) with
    | none => simp [fitBoundsEffect, hfind] at hfit
    | some entry =>
      cases geo with
      | none => simp [fitBoundsEffect, hfind] at hfit
      | some fs =>
        by_cases hms : (matchingFeatures entry fs).length = 0
        · simp [fitBoundsEffect, hfind, hms] at hfit
        · cases hbox : bboxOf (allPositions (matchingFeatures entry fs)) with
          | none => simp [fitBoundsEffect, hfind, hms, hbox] at hfit
          | some b0 =>
            by_cases hnd : b0.minLng < b0.maxLng ∧ b0.minLat < b0.maxLat
            · have heq : FitAction.fit b0 40 10 = FitAction.fit b p z := by
                rw [← hfit]
                simp [fitBoundsEffect, hfind, hms, hbox, hnd]
              obtain ⟨hb, hp, hz⟩ : b0 = b ∧ (40 : ℚ) = p ∧ (10 : ℚ) = z := by
                injection heq with h1 h2 h3
                exact ⟨h1, h2, h3⟩
              subst hb hp hz
              refine ⟨rfl, rfl, entry, fs, rfl, rfl, ?_, bboxOf_sound hbox, hnd.1, hnd.2⟩
              intro hnil
              rw [hnil] at hms
              exact hms rfl
            · simp [fitBoundsEffect, hfind, hms, hbox, hnd] at hfit
  · intro entry fs b hfind hgeo hbox hlng hlat
    subst hgeo
    have hps_ne : allPositions (matchingFeatures entry fs) ≠ [] := by
      obtain ⟨_, ⟨q, hq, _⟩, _⟩ := hbox
      intro h
      rw [h] at hq
      simp at hq
    have hms : (matchingFeatures entry fs).length ≠ 0 := by
      intro h
      apply hps_ne
      rw [List.length_eq_zero.1 h]
      rfl
    obtain ⟨b0, hb0⟩ := bboxOf_ne_none hps_ne
    obtain rfl : b = b0 := isBBoxOf_unique hbox (bboxOf_sound hb0)
    simp [fitBoundsEffect, hfind, hms, hb0, hlng, hlat]

/-- Witness for `viewport_fit_characterization`: a "TX" filter over one
matching two-point feature fits the box [[0,0],[1,1]]. -/
theorem viewport_fit_characterization_witness :
    (fitTable.find? (fun s => s.abbreviation == "TX")
        = some { name := "Texas", abbreviation := "TX", fips := "48" }
      ∧ isBBoxOf { minLng := 0, minLat := 0, maxLng := 1, maxLat := 1 }
          (allPositions (matchingFeatures
            { name := "Texas", abbreviation := "TX", fips := "48" } fitGeo))
      ∧ ((0 : ℚ) < 1))
    ∧ fitBoundsEffect fitTable (some "TX") (some fitGeo)
        = .fit { minLng := 0, minLat := 0, maxLng := 1, maxLat := 1 } 40 10 :=
  ⟨⟨by decide, by decide, by decide⟩,
   (viewport_fit_characterization fitTable "TX" (some fitGeo)).2
     { name := "Texas", abbreviation := "TX", fips := "48" } fitGeo
     { minLng := 0, minLat := 0, maxLng := 1, maxLat := 1 }
     (by decide) rfl (by decide) (by decide) (by decide)⟩

end MapGap
